import Mathlib

/-!
Shallow embedding of `aiocmd/aiocmd.py` (class `PromptToolkitCmd`): a
prompt-toolkit based REPL base class.  Command methods (`do_<name>`),
aliases, per-command completion providers, the single-command dispatcher
(`_run_single_command`), the read loop (`_run_prompt_forever`), the help
formatter (`do_help`) and the Ctrl-C binding (`_interrupt_handler`) are
embedded as executable Lean definitions; theorems below settle the
specification claims against them.
-/

namespace Aiocmd

/-- A parameter of a command method, in declaration order inside the
containing list; `hasDefault` records whether it carries a default value
(`param.default != param.empty` in `inspect`). -/
structure Param where
  name : String
  hasDefault : Bool
deriving DecidableEq, Repr

/-- The observable outcome of running a handler body: normal return,
raising `ExitPromptException`, being cancelled (`asyncio.CancelledError`),
or raising any other exception carrying a message. -/
inductive HandlerBehavior where
  | ok
  | raiseExit
  | raiseCancelled
  | raiseError (msg : String)
deriving DecidableEq, Repr

/-- A `do_<name>` method of a `PromptToolkitCmd` subclass: its parameter
signature (excluding `self`, as `inspect.signature` on a bound method),
its docstring, and what its body does when invoked. -/
structure CommandMethod where
  params : List Param
  doc : Option String
  behavior : HandlerBehavior
deriving DecidableEq, Repr

/-- Python exceptions that can cross the dispatch/loop boundary. -/
inductive PyExc where
  | exitPrompt
  | cancelled
  | attributeError (attr : String)
  | valueError (msg : String)
  | indexError
deriving DecidableEq, Repr

/-- A prompt-toolkit completer, as relevant here: the empty
`WordCompleter([])` default, a nonempty word completer, or an opaque
custom completer object returned by a `_<name>_completions` method. -/
inductive PyCompleter where
  | wordCompleter (words : List String)
  | custom (id : Nat)
deriving DecidableEq, Repr

/-- A `PromptToolkitCmd` (subclass) instance: its effective attribute
table restricted to what the code reflects over.  `doMethods` maps each
command name (the attribute name with the `do_` prefix stripped) to its
method; Python guarantees the keys are distinct.  `aliases` is the
`aliases` dict in insertion order; `completionsAttrs` maps `name` to the
completer returned by a declared `_<name>_completions` method. -/
structure PromptToolkitCmd where
  doMethods : List (String × CommandMethod)
  aliases : List (String × String)
  completionsAttrs : List (String × PyCompleter)
  doc_header : String := "Commands:"
deriving DecidableEq, Repr

instance {ε α : Type} [DecidableEq ε] [DecidableEq α] : DecidableEq (Except ε α) := fun x y =>
  match x, y with
  | .error a, .error b =>
    if h : a = b then .isTrue (by rw [h]) else .isFalse (fun hh => h (Except.error.inj hh))
  | .ok a, .ok b =>
    if h : a = b then .isTrue (by rw [h]) else .isFalse (fun hh => h (Except.ok.inj hh))
  | .error _, .ok _ => .isFalse (fun hh => Except.noConfusion hh)
  | .ok _, .error _ => .isFalse (fun hh => Except.noConfusion hh)

/-! ### Python string primitives used by the source -/

/-- Python string comparison: lexicographic on code points. -/
def charListLe : List Char → List Char → Bool
  | [], _ => true
  | _ :: _, [] => false
  | a :: as, b :: bs =>
    if a.toNat < b.toNat then true
    else if b.toNat < a.toNat then false
    else charListLe as bs

/-- Python `s1 <= s2` on strings. -/
def strLe (a b : String) : Bool :=
  charListLe a.data b.data

/-- `strLe` as a relation, for use with sorting. -/
def strLeP : String → String → Prop := fun a b => strLe a b = true

instance : DecidableRel strLeP := fun a b =>
  inferInstanceAs (Decidable (strLe a b = true))

/-- Python `sorted(...)` / `list.sort()` on strings (a stable sort in
Python's code-point order). -/
def pySorted (l : List String) : List String :=
  List.insertionSort strLeP l

/-- Python `sep.join(parts)`. -/
def pyJoin (sep : String) : List String → String
  | [] => ""
  | [x] => x
  | x :: xs => x ++ sep ++ pyJoin sep xs

/-- Remove leading and trailing whitespace from a character list. -/
def stripChars (l : List Char) : List Char :=
  ((l.dropWhile Char.isWhitespace).reverse.dropWhile Char.isWhitespace).reverse

/-- Python `str.strip()` with no argument: remove leading and trailing
whitespace. -/
def pyStrip (s : String) : String :=
  ⟨stripChars s.data⟩

/-- Python `"%-<n>s" % s`: left-justify `s` in a field of width `n`,
padding with spaces. -/
def ljust (s : String) (n : Nat) : String :=
  s ++ String.mk (List.replicate (n - s.length) ' ')

/-! ### `shlex.split` (POSIX mode), the tokenizer used by the loop -/

/-- Characters `shlex` treats as token-separating whitespace. -/
def shWhitespace (ch : Char) : Bool :=
  ch == ' ' || ch == '\t' || ch == '\r' || ch == '\n'

/-- Lexer mode: outside quotes, inside single quotes, inside double
quotes. -/
inductive ShMode where
  | norm
  | single
  | double
deriving DecidableEq, Repr

/-- Core of `shlex.split(s)` (POSIX rules, whitespace splitting): `cur`
holds the current token's characters in reverse, `none` when no token is
open.  An unterminated quote raises `ValueError("No closing quotation")`;
a trailing escape raises `ValueError("No escaped character")`. -/
def shlexAux : List Char → ShMode → Option (List Char) → Except String (List String)
  | [], .norm, none => .ok []
  | [], .norm, some tok => .ok [String.mk tok.reverse]
  | [], .single, _ => .error "No closing quotation"
  | [], .double, _ => .error "No closing quotation"
  | ch :: cs, .norm, cur =>
    if shWhitespace ch then
      match cur with
      | none => shlexAux cs .norm none
      | some tok => (shlexAux cs .norm none).map (String.mk tok.reverse :: ·)
    else if ch == '\'' then shlexAux cs .single (some (cur.getD []))
    else if ch == '"' then shlexAux cs .double (some (cur.getD []))
    else if ch == '\\' then
      match cs with
      | [] => .error "No escaped character"
      | d :: cs2 => shlexAux cs2 .norm (some (d :: cur.getD []))
    else shlexAux cs .norm (some (ch :: cur.getD []))
  | ch :: cs, .single, cur =>
    if ch == '\'' then shlexAux cs .norm cur
    else shlexAux cs .single (some (ch :: cur.getD []))
  | ch :: cs, .double, cur =>
    if ch == '"' then shlexAux cs .norm cur
    else if ch == '\\' then
      match cs with
      | [] => .error "No escaped character"
      | d :: cs2 =>
        if d == '"' || d == '\\' then shlexAux cs2 .double (some (d :: cur.getD []))
        else shlexAux cs2 .double (some (d :: '\\' :: cur.getD []))
    else shlexAux cs .double (some (ch :: cur.getD []))

/-- `shlex.split(s)`: `.ok tokens`, or `.error msg` for the
`ValueError`s shlex raises. -/
def shlexSplit (s : String) : Except String (List String) :=
  shlexAux s.data .norm none

namespace PromptToolkitCmd

/-- `actual_command_list`: names of `do_`-prefixed attributes, with the
prefix stripped.  `dir(self)` returns attribute names sorted, and sorting
by the full `do_<name>` string agrees with sorting by `<name>` since the
prefix is shared. -/
def actual_command_list (c : PromptToolkitCmd) : List String :=
  pySorted (c.doMethods.map Prod.fst)

/-- `command_list`: discovered command names followed by alias names. -/
def command_list (c : PromptToolkitCmd) : List String :=
  c.actual_command_list ++ c.aliases.map Prod.fst

/-- Alias resolution step shared by `_get_command` and
`_get_command_usage`: `if command in self.aliases: command = self.aliases[command]`. -/
def resolveAlias (c : PromptToolkitCmd) (command : String) : String :=
  (c.aliases.lookup command).getD command

/-- `_get_command`: resolve the alias once, then
`getattr(self, "do_" + command)`; `none` models the `AttributeError` a
dangling alias produces. -/
def _get_command (c : PromptToolkitCmd) (command : String) : Option CommandMethod :=
  c.doMethods.lookup (c.resolveAlias command)

/-- `_get_command_args`: split the resolved method's parameters into
those without a default (`args`) and those with one (`kwargs`),
preserving declaration order. -/
def _get_command_args (c : PromptToolkitCmd) (command : String) :
    Option (List Param × List Param) :=
  (c._get_command command).map fun m =>
    (m.params.filter fun p => !p.hasDefault, m.params.filter fun p => p.hasDefault)

/-- The `names` list `_get_command_usage` builds: resolve the alias,
collect the alias names mapping to the resolved name (`for alias in
self.aliases: if self.aliases[alias] == command: names.append(alias)`),
sort them (`names.sort()`), and put the resolved name first
(`names.insert(0, command)`). -/
def usageNames (c : PromptToolkitCmd) (command : String) : List String :=
  let command := c.resolveAlias command
  command :: pySorted ((c.aliases.filter fun p => p.2 == command).map Prod.fst)

/-- `_get_command_usage`: format
`"{} {} {}".format("|".join(names), "<args> ...", "[kwargs] ...").strip()`. -/
def _get_command_usage (c : PromptToolkitCmd) (command : String)
    (args kwargs : List Param) : String :=
  pyStrip (pyJoin "|" (usageNames c command) ++ " " ++
    pyJoin " " (args.map fun a => "<" ++ a.name ++ ">") ++ " " ++
    pyJoin " " (kwargs.map fun k => "[" ++ k.name ++ "]"))

/-- Result of one `_run_single_command` coroutine: what it printed,
whether the handler body was reached and invoked, and which exception (if
any) escapes it. -/
structure SingleResult where
  printed : List String
  handlerExecuted : Bool
  raised : Option PyExc
deriving DecidableEq, Repr

/-- `_run_single_command`: the first statement calls
`_get_command_args`, whose `getattr` raises `AttributeError` outside any
`try` for a dangling alias; then the arity check prints usage and
returns; then the handler runs, with `ExitPromptException` and
`CancelledError` re-raised and every other exception printed. -/
def _run_single_command (c : PromptToolkitCmd) (command : String)
    (args : List String) : SingleResult :=
  match c._get_command command with
  | none => ⟨[], false, some (.attributeError ("do_" ++ c.resolveAlias command))⟩
  | some m =>
    let command_real_args := m.params.filter fun p => !p.hasDefault
    let command_real_kwargs := m.params.filter fun p => p.hasDefault
    if args.length < command_real_args.length ∨
        args.length > command_real_args.length + command_real_kwargs.length then
      ⟨["Bad command args. Usage: " ++
          c._get_command_usage command command_real_args command_real_kwargs],
        false, none⟩
    else
      match m.behavior with
      | .ok => ⟨[], true, none⟩
      | .raiseExit => ⟨[], true, some .exitPrompt⟩
      | .raiseCancelled => ⟨[], true, some .cancelled⟩
      | .raiseError msg => ⟨["Command failed:  " ++ msg], true, none⟩

/-- The `_currently_running_task` slot's content: the task wrapping one
`_run_single_command(command, args)` call. -/
structure TaskRec where
  command : String
  args : List String
deriving DecidableEq, Repr

/-- How processing one input line leaves the loop: continue to the next
prompt, return normally (`ExitPromptException` caught), or die on an
uncaught exception. -/
inductive StepOutcome where
  | next
  | exitLoop
  | crash (e : PyExc)
deriving DecidableEq, Repr

/-- Effect of one iteration of the `while True` body on the session:
lines printed, the `_currently_running_task` slot afterwards, and the
control outcome. -/
structure LineStep where
  printed : List String
  task : Option TaskRec
  outcome : StepOutcome
deriving DecidableEq, Repr

/-- One iteration of `_run_prompt_forever`'s body on input `line`, given
the current `_currently_running_task` slot.  Empty input is skipped;
`shlex.split` errors and `args[0]` on an empty token list are raised
outside any `try`; a dispatched command sets the slot (never cleared) and
its `CancelledError` / `ExitPromptException` are caught, any other
escaping exception is not. -/
def processLine (c : PromptToolkitCmd) (task : Option TaskRec) (line : String) : LineStep :=
  if line = "" then ⟨[], task, .next⟩
  else
    match shlexSplit line with
    | .error msg => ⟨[], task, .crash (.valueError msg)⟩
    | .ok [] => ⟨[], task, .crash .indexError⟩
    | .ok (cmd :: rest) =>
      if cmd ∈ c.command_list then
        let t := some (TaskRec.mk cmd rest)
        let r := c._run_single_command cmd rest
        match r.raised with
        | none => ⟨r.printed, t, .next⟩
        | some .cancelled => ⟨r.printed ++ [""], t, .next⟩
        | some .exitPrompt => ⟨r.printed, t, .exitLoop⟩
        | some e => ⟨r.printed, t, .crash e⟩
      else ⟨["Command " ++ cmd ++ " not found!"], task, .next⟩

/-- How `_run_prompt_forever` ended: `EOFError` from the prompt (clean
return), `ExitPromptException` (clean return), or an uncaught exception. -/
inductive LoopEnd where
  | eof
  | exitPrompt
  | crashed (e : PyExc)
deriving DecidableEq, Repr

/-- Observable result of running the loop over a finite input script. -/
structure LoopResult where
  printed : List String
  ended : LoopEnd
  finalTask : Option TaskRec
deriving DecidableEq, Repr

/-- `_run_prompt_forever` over a list of input lines (exhaustion of the
list models `EOFError`), threading the `_currently_running_task` slot. -/
def _run_prompt_forever (c : PromptToolkitCmd) :
    Option TaskRec → List String → LoopResult
  | task, [] => ⟨[], .eof, task⟩
  | task, line :: rest =>
    let s := c.processLine task line
    match s.outcome with
    | .next =>
      let r := c._run_prompt_forever s.task rest
      ⟨s.printed ++ r.printed, r.ended, r.finalTask⟩
    | .exitLoop => ⟨s.printed, .exitPrompt, s.task⟩
    | .crash e => ⟨s.printed, .crashed e, s.task⟩

/-- The helper `get_usage` closed over in `do_help`:
`self._get_command_usage(c, *self._get_command_args(c))`. -/
def get_usage (c : PromptToolkitCmd) (command : String) : Option String :=
  (c._get_command_args command).map fun p => c._get_command_usage command p.1 p.2

/-- Lines printed by `do_help`: a blank line, the header, a `=` rule,
then for each command of `sorted(actual_command_list)` its usage
left-justified to `max_usage_len + 2` followed by its docstring (or `""`).
`max_usage_len` maximizes over all of `command_list`; `none` models the
exceptions `do_help` can raise (dangling alias, empty `max`). -/
def do_help_lines (c : PromptToolkitCmd) : Option (List String) := do
  let usages ← c.command_list.mapM c.get_usage
  let maxUsageLen ← (usages.map String.length).max?
  let body ← (pySorted c.actual_command_list).mapM fun command => do
    let m ← c._get_command command
    let u ← c.get_usage command
    pure (ljust u (maxUsageLen + 2) ++ m.doc.getD "")
  pure (["", c.doc_header, String.mk (List.replicate c.doc_header.length '=')] ++ body)

/-- `_completer_for_command`: the completer from a declared
`_<command>_completions` attribute, else `WordCompleter([])`.  The lookup
uses the literal name; no alias resolution happens here. -/
def _completer_for_command (c : PromptToolkitCmd) (command : String) : PyCompleter :=
  match c.completionsAttrs.lookup command with
  | none => .wordCompleter []
  | some comp => comp

/-- `_make_completer`: the `NestedCompleter` dict
`{com: completer for com in command_list}`, as an association list. -/
def _make_completer (c : PromptToolkitCmd) : List (String × PyCompleter) :=
  c.command_list.map fun com => (com, c._completer_for_command com)

end PromptToolkitCmd

open PromptToolkitCmd

/-- The prompt-toolkit application state the Ctrl-C binding can touch:
the current input buffer, the running-task slot, and whether the loop is
still alive. -/
structure PromptAppState where
  currentBufferText : String
  runningTask : Option PromptToolkitCmd.TaskRec
  loopAlive : Bool
deriving DecidableEq, Repr

/-- `_interrupt_handler(event)`: `event.cli.current_buffer.text = ""`. -/
def _interrupt_handler (s : PromptAppState) : PromptAppState :=
  { s with currentBufferText := "" }

/-- `_get_bindings`: one binding, Ctrl-C to `_interrupt_handler`. -/
def _get_bindings : List (String × (PromptAppState → PromptAppState)) :=
  [("c-c", _interrupt_handler)]

/-- The base class itself as an instance: `do_help`, `do_history`,
`do_quit` (raising `ExitPromptException`), default aliases
`{"?": "help", "exit": "quit"}`, no completion providers. -/
def basePromptToolkitCmd : PromptToolkitCmd where
  doMethods :=
    [("help", ⟨[], some "Print commands usage", .ok⟩),
     ("history", ⟨[], some "Print commands history", .ok⟩),
     ("quit", ⟨[], some "Exit the prompt", .raiseExit⟩)]
  aliases := [("?", "help"), ("exit", "quit")]
  completionsAttrs := []

/-! ### Example instances used by witnesses and counterexamples -/

/-- A subclass declaring one command with 2 required and 1 optional
parameter (`def do_c23(self, a, b, c=None)`). -/
def c23Cmd : PromptToolkitCmd where
  doMethods := [("c23", ⟨[⟨"a", false⟩, ⟨"b", false⟩, ⟨"c", true⟩], none, .ok⟩)]
  aliases := []
  completionsAttrs := []

/-- A subclass declaring one command whose handler gets cancelled while
running (e.g. a long `asyncio.sleep` interrupted by SIGINT). -/
def sleepCmd : PromptToolkitCmd where
  doMethods := [("sleep", ⟨[], none, .raiseCancelled⟩)]
  aliases := []
  completionsAttrs := []

/-- A subclass declaring one command with no required and one optional
parameter (`def do_foo(self, x=None)`). -/
def optOnlyCmd : PromptToolkitCmd where
  doMethods := [("foo", ⟨[⟨"x", true⟩], none, .ok⟩)]
  aliases := []
  completionsAttrs := []

/-- A subclass with a command `scan` that declares a custom completion
provider, and an alias `s` for it. -/
def aliasedCompletionsCmd : PromptToolkitCmd where
  doMethods := [("scan", ⟨[⟨"target", false⟩], none, .ok⟩)]
  aliases := [("s", "scan")]
  completionsAttrs := [("scan", .custom 0)]

/-! ### Helper lemmas -/

theorem mem_keys_of_lookup_eq_some {β : Type} (l : List (String × β)) (a : String) (b : β)
    (h : l.lookup a = some b) : a ∈ l.map Prod.fst := by
  induction l with
  | nil => simp at h
  | cons p ps ih =>
    obtain ⟨k, v⟩ := p
    by_cases hk : a = k
    · simp [hk]
    · simp only [List.lookup_cons, beq_false_of_ne hk] at h
      exact List.mem_cons_of_mem _ (ih h)

theorem lookup_map_pair {β : Type} (f : String → β) (l : List String) (a : String) :
    (l.map fun x => (x, f x)).lookup a = if a ∈ l then some (f a) else none := by
  induction l with
  | nil => simp
  | cons x xs ih =>
    by_cases hx : a = x
    · subst hx
      simp [List.lookup_cons]
    · simp [List.lookup_cons, beq_false_of_ne hx, ih, List.mem_cons, hx]

/-! ### Claim C3: arity validation gates handler execution -/

/-- C3: for a dispatched command (after alias resolution) with required
parameters `r` and optional parameters `k`, the handler body is reached
and executed exactly when `|r| ≤ n ≤ |r| + |k|` for `n` supplied
arguments; outside that range `_run_single_command` prints the usage
string and does not execute the handler. -/
theorem claim_c3 (c : PromptToolkitCmd) (command : String) (args : List String)
    (m : CommandMethod) (h : c._get_command command = some m) :
    ((c._run_single_command command args).handlerExecuted = true ↔
      (m.params.filter fun p => !p.hasDefault).length ≤ args.length ∧
        args.length ≤ (m.params.filter fun p => !p.hasDefault).length +
          (m.params.filter fun p => p.hasDefault).length) ∧
    ((args.length < (m.params.filter fun p => !p.hasDefault).length ∨
        args.length > (m.params.filter fun p => !p.hasDefault).length +
          (m.params.filter fun p => p.hasDefault).length) →
      c._run_single_command command args =
        ⟨["Bad command args. Usage: " ++ c._get_command_usage command
            (m.params.filter fun p => !p.hasDefault)
            (m.params.filter fun p => p.hasDefault)],
          false, none⟩) := by
  simp only [_run_single_command, h]
  constructor
  · split
    next hcond =>
      exact ⟨fun hfe => by simp at hfe, fun hb => absurd hcond (by omega)⟩
    next hcond =>
      cases m.behavior <;> exact ⟨fun _ => by omega, fun _ => rfl⟩
  · intro hbad
    split
    next hcond => rfl
    next hcond => exact absurd hbad hcond

/-- C3 witness: in `c23Cmd` (2 required, 1 optional), 2 and 3 arguments
execute the handler, 1 and 4 do not. -/
theorem claim_c3_witness :
    (c23Cmd._run_single_command "c23" ["x", "y"]).handlerExecuted = true ∧
    (c23Cmd._run_single_command "c23" ["x", "y", "z"]).handlerExecuted = true ∧
    (c23Cmd._run_single_command "c23" ["x"]).handlerExecuted = false ∧
    (c23Cmd._run_single_command "c23" ["x", "y", "z", "w"]).handlerExecuted = false := by
  have h : c23Cmd._get_command "c23" =
      some ⟨[⟨"a", false⟩, ⟨"b", false⟩, ⟨"c", true⟩], none, .ok⟩ := by decide
  refine ⟨?_, ?_, ?_, ?_⟩
  · exact (claim_c3 c23Cmd "c23" ["x", "y"] _ h).1.mpr (by decide)
  · exact (claim_c3 c23Cmd "c23" ["x", "y", "z"] _ h).1.mpr (by decide)
  · exact congrArg SingleResult.handlerExecuted
      ((claim_c3 c23Cmd "c23" ["x"] _ h).2 (by decide))
  · exact congrArg SingleResult.handlerExecuted
      ((claim_c3 c23Cmd "c23" ["x", "y", "z", "w"] _ h).2 (by decide))

/-! ### Claim C4: aliases dispatch identically to their canonical target -/

/-- C4: for an alias entry `a ↦ canon` whose target is a canonical name
(not itself an alias key), resolution, the computed required/optional
parameter split, the usage string, and the whole single-command dispatch
agree between the alias and the canonical name. -/
theorem claim_c4 (c : PromptToolkitCmd) (a canon : String)
    (ha : c.aliases.lookup a = some canon) (hcanon : c.aliases.lookup canon = none) :
    c._get_command a = c._get_command canon ∧
    c._get_command_args a = c._get_command_args canon ∧
    (∀ args kwargs, c._get_command_usage a args kwargs =
      c._get_command_usage canon args kwargs) ∧
    (∀ args, c._run_single_command a args = c._run_single_command canon args) := by
  have hres : c.resolveAlias a = c.resolveAlias canon := by
    simp [resolveAlias, ha, hcanon]
  have hnames : usageNames c a = usageNames c canon := by
    unfold usageNames
    rw [hres]
  have hget : c._get_command a = c._get_command canon := by
    unfold _get_command
    rw [hres]
  have husage : ∀ args kwargs, c._get_command_usage a args kwargs =
      c._get_command_usage canon args kwargs := by
    intro args kwargs
    unfold _get_command_usage
    rw [hnames]
  have hargs : c._get_command_args a = c._get_command_args canon := by
    unfold _get_command_args
    rw [hget]
  refine ⟨hget, hargs, husage, fun args => ?_⟩
  unfold _run_single_command
  simp only [hget, hres, husage]

/-- C4 witness: in the base class, `?` dispatches exactly like `help`. -/
theorem claim_c4_witness :
    basePromptToolkitCmd._get_command "?" = basePromptToolkitCmd._get_command "help" ∧
    basePromptToolkitCmd._get_command_usage "?" [] [] =
      basePromptToolkitCmd._get_command_usage "help" [] [] ∧
    basePromptToolkitCmd._run_single_command "?" [] =
      basePromptToolkitCmd._run_single_command "help" [] := by
  have h := claim_c4 basePromptToolkitCmd "?" "help" (by decide) (by decide)
  exact ⟨h.1, h.2.2.1 [] [], h.2.2.2 []⟩

/-! ### Claim C5: required/optional split follows default values -/

/-- C5: the computed `args`/`kwargs` split of a command's parameters
consists of exactly the parameters without/with a default value, each
list a sublist of the declaration order (order-preserving), and together
they partition the parameter list. -/
theorem claim_c5 (c : PromptToolkitCmd) (command : String) (m : CommandMethod)
    (h : c._get_command command = some m) (ra ka : List Param)
    (hargs : c._get_command_args command = some (ra, ka)) :
    List.Sublist ra m.params ∧ List.Sublist ka m.params ∧
    (∀ p, p ∈ ra ↔ p ∈ m.params ∧ p.hasDefault = false) ∧
    (∀ p, p ∈ ka ↔ p ∈ m.params ∧ p.hasDefault = true) ∧
    ra.length + ka.length = m.params.length := by
  unfold _get_command_args at hargs
  rw [h, Option.map_some'] at hargs
  injection hargs with hpair
  injection hpair with h1 h2
  subst h1
  subst h2
  refine ⟨List.filter_sublist _, List.filter_sublist _, fun p => ?_, fun p => ?_, ?_⟩
  · simp [List.mem_filter]
  · simp [List.mem_filter]
  · have hperm := (List.filter_append_perm (fun p => p.hasDefault) m.params).length_eq
    rw [List.length_append] at hperm
    omega

/-- C5 witness: the split for `c23Cmd`'s command `c23`. -/
theorem claim_c5_witness :
    List.Sublist ([⟨"a", false⟩, ⟨"b", false⟩] : List Param)
      [⟨"a", false⟩, ⟨"b", false⟩, ⟨"c", true⟩] ∧
    ([⟨"a", false⟩, ⟨"b", false⟩] : List Param).length +
      ([⟨"c", true⟩] : List Param).length =
      ([⟨"a", false⟩, ⟨"b", false⟩, ⟨"c", true⟩] : List Param).length := by
  have h := claim_c5 c23Cmd "c23" ⟨[⟨"a", false⟩, ⟨"b", false⟩, ⟨"c", true⟩], none, .ok⟩
    (by decide) [⟨"a", false⟩, ⟨"b", false⟩] [⟨"c", true⟩] (by decide)
  exact ⟨h.1, h.2.2.2.2⟩

/-! ### Claim C8: the Ctrl-C binding only clears the input buffer -/

/-- C8: the `c-c` key binding is `_interrupt_handler`, which sets the
current buffer text to the empty string and leaves the running-task slot
and the liveness of the loop untouched. -/
theorem claim_c8 (s : PromptAppState) :
    _get_bindings.lookup "c-c" = some _interrupt_handler ∧
    (_interrupt_handler s).currentBufferText = "" ∧
    (_interrupt_handler s).runningTask = s.runningTask ∧
    (_interrupt_handler s).loopAlive = s.loopAlive :=
  ⟨rfl, rfl, rfl, rfl⟩

/-! ### Claim C9: built-in commands and aliases are always dispatchable -/

/-- C9: any instance whose attribute table keeps the base class's
`do_help`, `do_history`, `do_quit` and default aliases (i.e. does not
remove them) has `help`, `history`, `quit`, `?`, `exit` in its
dispatchable command set. -/
theorem claim_c9 (c : PromptToolkitCmd)
    (h1 : "help" ∈ c.doMethods.map Prod.fst)
    (h2 : "history" ∈ c.doMethods.map Prod.fst)
    (h3 : "quit" ∈ c.doMethods.map Prod.fst)
    (h4 : "?" ∈ c.aliases.map Prod.fst)
    (h5 : "exit" ∈ c.aliases.map Prod.fst) :
    "help" ∈ c.command_list ∧ "history" ∈ c.command_list ∧ "quit" ∈ c.command_list ∧
    "?" ∈ c.command_list ∧ "exit" ∈ c.command_list := by
  have hm : ∀ x, x ∈ c.doMethods.map Prod.fst → x ∈ c.command_list := fun x hx =>
    List.mem_append.2
      (Or.inl ((List.perm_insertionSort strLeP (c.doMethods.map Prod.fst)).mem_iff.2 hx))
  have hal : ∀ x, x ∈ c.aliases.map Prod.fst → x ∈ c.command_list := fun x hx =>
    List.mem_append.2 (Or.inr hx)
  exact ⟨hm _ h1, hm _ h2, hm _ h3, hal _ h4, hal _ h5⟩

/-- C9 witness: the base class instance itself. -/
theorem claim_c9_witness :
    "help" ∈ basePromptToolkitCmd.command_list ∧
    "history" ∈ basePromptToolkitCmd.command_list ∧
    "quit" ∈ basePromptToolkitCmd.command_list ∧
    "?" ∈ basePromptToolkitCmd.command_list ∧
    "exit" ∈ basePromptToolkitCmd.command_list :=
  claim_c9 basePromptToolkitCmd (by decide) (by decide) (by decide) (by decide) (by decide)

/-! ### Claim C10: completion is looked up by literal token, not through aliases -/

/-- C10: an alias name with no completion provider declared under the
alias's own literal name gets the empty `WordCompleter` in the completion
tree, whatever its canonical target declares. -/
theorem claim_c10 (c : PromptToolkitCmd) (a canon : String)
    (ha : c.aliases.lookup a = some canon)
    (hnone : c.completionsAttrs.lookup a = none) :
    c._completer_for_command a = .wordCompleter [] ∧
    c._make_completer.lookup a = some (.wordCompleter []) := by
  have h1 : c._completer_for_command a = .wordCompleter [] := by
    unfold _completer_for_command
    rw [hnone]
  have hmem : a ∈ c.command_list :=
    List.mem_append.2 (Or.inr (mem_keys_of_lookup_eq_some _ _ _ ha))
  refine ⟨h1, ?_⟩
  unfold _make_completer
  rw [lookup_map_pair, if_pos hmem, h1]

/-- C10 witness: in `aliasedCompletionsCmd`, the canonical command `scan`
has a custom completer but its alias `s` still gets the empty word
completer. -/
theorem claim_c10_witness :
    aliasedCompletionsCmd._completer_for_command "scan" = .custom 0 ∧
    aliasedCompletionsCmd._completer_for_command "s" = .wordCompleter [] ∧
    aliasedCompletionsCmd._make_completer.lookup "s" = some (.wordCompleter []) := by
  have h := claim_c10 aliasedCompletionsCmd "s" "scan" (by decide) (by decide)
  exact ⟨by decide, h.1, h.2⟩

/-! ### Claims C1/C2: loop-boundary exception routing and the running-task slot -/

/-- A subclass with a dangling alias: `gone` maps to `nothere`, but no
`do_nothere` method exists. -/
def danglingAliasCmd : PromptToolkitCmd where
  doMethods := [("help", ⟨[], none, .ok⟩)]
  aliases := [("gone", "nothere")]
  completionsAttrs := []

/-- What can escape `_run_single_command`: an `AttributeError` when the
resolved method is missing (raised by the first statement, outside the
`try`), otherwise nothing except a re-raised `ExitPromptException` or
`CancelledError` from the handler body. -/
theorem run_single_raised_cases (c : PromptToolkitCmd) (cmd : String) (args : List String) :
    (c._get_command cmd = none ∧
      (c._run_single_command cmd args).raised =
        some (.attributeError ("do_" ++ c.resolveAlias cmd))) ∨
    (∃ m, c._get_command cmd = some m ∧
      ((c._run_single_command cmd args).raised = none ∨
        ((c._run_single_command cmd args).raised = some .exitPrompt ∧
          m.behavior = .raiseExit) ∨
        ((c._run_single_command cmd args).raised = some .cancelled ∧
          m.behavior = .raiseCancelled))) := by
  cases hg : c._get_command cmd with
  | none =>
    left
    refine ⟨rfl, ?_⟩
    simp only [_run_single_command, hg]
  | some m =>
    right
    refine ⟨m, rfl, ?_⟩
    simp only [_run_single_command, hg]
    split
    · exact Or.inl rfl
    · cases hb : m.behavior
      · exact Or.inl rfl
      · exact Or.inr (Or.inl ⟨rfl, rfl⟩)
      · exact Or.inr (Or.inr ⟨rfl, rfl⟩)
      · exact Or.inl rfl

/-- C1 counterexample: a whitespace-only line, a line with an unbalanced
quote, and a dangling-alias dispatch each kill `_run_prompt_forever` with
an uncaught exception — nothing is printed and the following line is
never read — contradicting the claim that every failure other than the
exit signal and EOF is caught and converted to a printed message. -/
theorem claim_c1_counterexample :
    basePromptToolkitCmd._run_prompt_forever none [" ", "help"] =
      ⟨[], .crashed .indexError, none⟩ ∧
    basePromptToolkitCmd._run_prompt_forever none ["x \"y", "help"] =
      ⟨[], .crashed (.valueError "No closing quotation"), none⟩ ∧
    danglingAliasCmd._run_prompt_forever none ["gone", "help"] =
      ⟨[], .crashed (.attributeError "do_nothere"), some ⟨"gone", []⟩⟩ := by
  decide

/-- C1 amended: unknown commands, arity mismatches, handler failures and
cancellation are caught at the loop boundary and the loop continues, and
the loop exits only through the exit signal; but an uncaught crash is
possible and happens exactly on a tokenizer `ValueError`, on a
whitespace-only line (empty token list, `IndexError`), or on a dangling
alias (`AttributeError`). -/
theorem claim_c1_amended (c : PromptToolkitCmd) (task : Option TaskRec) (line : String) :
    (∀ e, (c.processLine task line).outcome = .crash e →
      (∃ msg, shlexSplit line = .error msg ∧ e = .valueError msg) ∨
      (line ≠ "" ∧ shlexSplit line = .ok [] ∧ e = .indexError) ∨
      (∃ cmd rest, shlexSplit line = .ok (cmd :: rest) ∧ cmd ∈ c.command_list ∧
        c._get_command cmd = none ∧
        e = .attributeError ("do_" ++ c.resolveAlias cmd))) ∧
    ((c.processLine task line).outcome = .exitLoop →
      ∃ cmd rest m, shlexSplit line = .ok (cmd :: rest) ∧ cmd ∈ c.command_list ∧
        c._get_command cmd = some m ∧ m.behavior = .raiseExit) ∧
    (∀ cmd rest, shlexSplit line = .ok (cmd :: rest) →
      (cmd ∈ c.command_list → (c._get_command cmd).isSome) →
      (c.processLine task line).outcome = .next ∨
        (c.processLine task line).outcome = .exitLoop) := by
  by_cases hline : line = ""
  · subst hline
    refine ⟨?_, ?_, ?_⟩
    · intro e he
      simp [processLine] at he
    · intro he
      simp [processLine] at he
    · intro cmd rest htok hres
      left
      simp [processLine]
  · cases hs : shlexSplit line with
    | error msg =>
      refine ⟨?_, ?_, ?_⟩
      · intro e he
        simp [processLine, hline, hs] at he
        exact Or.inl ⟨msg, rfl, he.symm⟩
      · intro he
        simp [processLine, hline, hs] at he
      · intro cmd rest htok hres
        exact absurd htok (by simp)
    | ok toks =>
      cases toks with
      | nil =>
        refine ⟨?_, ?_, ?_⟩
        · intro e he
          simp [processLine, hline, hs] at he
          exact Or.inr (Or.inl ⟨hline, rfl, he.symm⟩)
        · intro he
          simp [processLine, hline, hs] at he
        · intro cmd rest htok hres
          exact absurd htok (by simp)
      | cons cmd rest =>
        by_cases hmem : cmd ∈ c.command_list
        · rcases run_single_raised_cases c cmd rest with ⟨hg, hr⟩ | ⟨m, hg, hcases⟩
          · refine ⟨?_, ?_, ?_⟩
            · intro e he
              simp [processLine, hline, hs, hmem, hr] at he
              exact Or.inr (Or.inr ⟨cmd, rest, rfl, hmem, hg, he.symm⟩)
            · intro he
              simp [processLine, hline, hs, hmem, hr] at he
            · intro cmd' rest' htok hres
              injection htok with htoks
              injection htoks with hc hrlist
              subst hc
              have := hres hmem
              rw [hg] at this
              simp at this
          · rcases hcases with hr | ⟨hr, hb⟩ | ⟨hr, hb⟩
            · refine ⟨?_, ?_, ?_⟩
              · intro e he
                simp [processLine, hline, hs, hmem, hr] at he
              · intro he
                simp [processLine, hline, hs, hmem, hr] at he
              · intro _ _ _ _
                left
                simp [processLine, hline, hs, hmem, hr]
            · refine ⟨?_, ?_, ?_⟩
              · intro e he
                simp [processLine, hline, hs, hmem, hr] at he
              · intro he
                exact ⟨cmd, rest, m, rfl, hmem, hg, hb⟩
              · intro _ _ _ _
                right
                simp [processLine, hline, hs, hmem, hr]
            · refine ⟨?_, ?_, ?_⟩
              · intro e he
                simp [processLine, hline, hs, hmem, hr] at he
              · intro he
                simp [processLine, hline, hs, hmem, hr] at he
              · intro _ _ _ _
                left
                simp [processLine, hline, hs, hmem, hr]
        · refine ⟨?_, ?_, ?_⟩
          · intro e he
            simp [processLine, hline, hs, hmem] at he
          · intro he
            simp [processLine, hline, hs, hmem] at he
          · intro _ _ _ _
            left
            simp [processLine, hline, hs, hmem]

/-- C1 witness: an unknown command and a failing handler both leave the
loop running. -/
theorem claim_c1_witness :
    ((basePromptToolkitCmd.processLine none "unknowncmd").outcome = .next ∨
      (basePromptToolkitCmd.processLine none "unknowncmd").outcome = .exitLoop) ∧
    ((sleepCmd.processLine none "sleep").outcome = .next ∨
      (sleepCmd.processLine none "sleep").outcome = .exitLoop) :=
  ⟨(claim_c1_amended basePromptToolkitCmd none "unknowncmd").2.2 "unknowncmd" []
      (by decide) (by decide),
    (claim_c1_amended sleepCmd none "sleep").2.2 "sleep" [] (by decide) (by decide)⟩

/-- C2 counterexample: after a command is cancelled the loop continues
(a blank line is printed), but the `_currently_running_task` slot still
holds the finished task while the loop waits for the next input line —
the code never resets the slot to `None`. -/
theorem claim_c2_counterexample :
    (sleepCmd.processLine none "sleep").outcome = .next ∧
    (sleepCmd.processLine none "sleep").printed = [""] ∧
    ¬ (sleepCmd.processLine none "sleep").task = none := by
  decide

/-- C2 amended: the slot is set to the dispatched command's task when
dispatch begins, and it retains that (finished) task after the command
completes, fails or is cancelled — it is never cleared back to `none`. -/
theorem claim_c2_amended (c : PromptToolkitCmd) (task : Option TaskRec) (line : String)
    (cmd : String) (rest : List String)
    (hline : ¬ line = "") (htok : shlexSplit line = .ok (cmd :: rest))
    (hmem : cmd ∈ c.command_list) :
    (c.processLine task line).task = some ⟨cmd, rest⟩ := by
  simp only [processLine, if_neg hline, htok]
  simp only [hmem, if_true]
  split <;> rfl

/-- C2 witness: the cancelled `sleep` command's task stays in the slot. -/
theorem claim_c2_witness :
    (sleepCmd.processLine none "sleep").task = some ⟨"sleep", []⟩ :=
  claim_c2_amended sleepCmd none "sleep" "sleep" [] (by decide) (by decide) (by decide)

/-! ### Order facts for the Python string comparison, and Option.mapM helpers -/

theorem charListLe_total : ∀ (a b : List Char), charListLe a b = true ∨ charListLe b a = true := by
  intro a
  induction a with
  | nil => intro b; left; rfl
  | cons x xs ih =>
    intro b
    cases b with
    | nil => right; rfl
    | cons y ys =>
      by_cases h1 : x.toNat < y.toNat
      · left
        simp [charListLe, h1]
      · by_cases h2 : y.toNat < x.toNat
        · right
          simp [charListLe, h2]
        · rcases ih ys with h | h
          · left
            simp [charListLe, h1, h2, h]
          · right
            simp [charListLe, h1, h2, h]

theorem charListLe_trans : ∀ (a b c : List Char),
    charListLe a b = true → charListLe b c = true → charListLe a c = true := by
  intro a
  induction a with
  | nil => intro b c _ _; rfl
  | cons x xs ih =>
    intro b c hab hbc
    cases b with
    | nil => simp [charListLe] at hab
    | cons y ys =>
      cases c with
      | nil => simp [charListLe] at hbc
      | cons z zs =>
        by_cases h1 : x.toNat < y.toNat <;> by_cases h2 : y.toNat < z.toNat
        · simp [charListLe, show x.toNat < z.toNat by omega]
        · by_cases h3 : z.toNat < y.toNat
          · simp [charListLe, h2, h3] at hbc
          · simp [charListLe, show x.toNat < z.toNat by omega]
        · by_cases h3 : y.toNat < x.toNat
          · simp [charListLe, h1, h3] at hab
          · simp [charListLe, show x.toNat < z.toNat by omega]
        · by_cases h3 : y.toNat < x.toNat
          · simp [charListLe, h1, h3] at hab
          · by_cases h4 : z.toNat < y.toNat
            · simp [charListLe, h2, h4] at hbc
            · have hab2 : charListLe xs ys = true := by
                simpa [charListLe, h1, h3] using hab
              have hbc2 : charListLe ys zs = true := by
                simpa [charListLe, h2, h4] using hbc
              have hxz1 : ¬ x.toNat < z.toNat := by omega
              have hxz2 : ¬ z.toNat < x.toNat := by omega
              simp [charListLe, hxz1, hxz2, ih ys zs hab2 hbc2]

instance : IsTotal String strLeP :=
  ⟨fun a b => charListLe_total a.data b.data⟩

instance : IsTrans String strLeP :=
  ⟨fun a b c => charListLe_trans a.data b.data c.data⟩

theorem option_mapM_forall2 {α β : Type} (f : α → Option β) :
    ∀ (l : List α) (l2 : List β), l.mapM f = some l2 →
      List.Forall₂ (fun a b => f a = some b) l l2 := by
  intro l
  induction l with
  | nil =>
    intro l2 h
    rw [List.mapM_nil] at h
    injection h with h
    subst h
    exact List.Forall₂.nil
  | cons x xs ih =>
    intro l2 h
    rw [List.mapM_cons] at h
    cases hfx : f x with
    | none =>
      rw [hfx] at h
      simp at h
    | some b =>
      rw [hfx] at h
      cases hxs : xs.mapM f with
      | none =>
        rw [hxs] at h
        simp at h
      | some bs =>
        rw [hxs] at h
        simp at h
        subst h
        exact List.Forall₂.cons hfx (ih bs hxs)

theorem option_mapM_isSome {α β : Type} (f : α → Option β) :
    ∀ (l : List α), (∀ a ∈ l, (f a).isSome) →
      ∃ l2, l.mapM f = some l2 ∧ List.Forall₂ (fun a b => f a = some b) l l2 := by
  intro l
  induction l with
  | nil =>
    intro _
    exact ⟨[], rfl, List.Forall₂.nil⟩
  | cons x xs ih =>
    intro h
    obtain ⟨b, hb⟩ := Option.isSome_iff_exists.1 (h x (List.mem_cons_self x xs))
    obtain ⟨l2, hl2, hf2⟩ := ih fun a ha => h a (List.mem_cons_of_mem _ ha)
    refine ⟨b :: l2, ?_, List.Forall₂.cons hb hf2⟩
    rw [List.mapM_cons]
    simp only [hb, hl2, Option.bind_eq_bind, Option.some_bind]
    rfl

theorem forall2_exists_of_mem {α β : Type} {R : α → β → Prop} :
    ∀ {l1 : List α} {l2 : List β}, List.Forall₂ R l1 l2 → ∀ a ∈ l1, ∃ b ∈ l2, R a b := by
  intro l1 l2 h
  induction h with
  | nil =>
    intro a ha
    simp at ha
  | cons hab htail ih =>
    intro a ha
    rcases List.mem_cons.1 ha with rfl | ha2
    · exact ⟨_, List.mem_cons_self _ _, hab⟩
    · obtain ⟨b, hb, hr⟩ := ih a ha2
      exact ⟨b, List.mem_cons_of_mem _ hb, hr⟩

theorem le_of_max?_eq_some {l : List Nat} {m : Nat} (h : l.max? = some m) :
    ∀ x ∈ l, x ≤ m :=
  ((List.max?_eq_some_iff le_refl max_choice (fun _ _ _ => max_le_iff)).1 h).2

theorem ljust_length {s : String} {n : Nat} (h : s.length ≤ n) : (ljust s n).length = n := by
  have hlen : s.length = s.data.length := rfl
  simp only [ljust, String.length_append]
  have hmk : (String.mk (List.replicate (n - s.length) ' ')).length =
      (List.replicate (n - s.length) ' ').length := rfl
  rw [hmk, List.length_replicate]
  omega

/-! ### Claim C6: help output format -/

/-- C6 counterexample: `do_help` left-justifies each usage string to the
maximum usage width **plus two**, not to the maximum usage width itself:
on the base class the maximum width is 9 (`quit|exit`) yet the help line
for `help` pads its 6-character usage to 11 columns, not 9. -/
theorem claim_c6_counterexample :
    basePromptToolkitCmd.command_list.mapM basePromptToolkitCmd.get_usage =
      some ["help|?", "history", "quit|exit", "help|?", "quit|exit"] ∧
    ((["help|?", "history", "quit|exit", "help|?", "quit|exit"].map String.length).max? =
      some 9) ∧
    do_help_lines basePromptToolkitCmd =
      some ["", "Commands:", "=========",
        "help|?     Print commands usage",
        "history    Print commands history",
        "quit|exit  Exit the prompt"] ∧
    "help|?     Print commands usage" ≠ ljust "help|?" 9 ++ "Print commands usage" := by
  decide

/-- C6 amended: the help body lists the canonical commands exactly once,
sorted (Python code-point order), and each line is the command's usage
left-justified to `max_usage_len + 2` (two more than the maximum usage
width over all of `command_list`) followed by the docstring or the empty
string; the padded field has the same width `max_usage_len + 2` on every
line. -/
theorem claim_c6_amended (c : PromptToolkitCmd) (usages : List String) (maxLen : Nat)
    (hus : c.command_list.mapM c.get_usage = some usages)
    (hmax : (usages.map String.length).max? = some maxLen)
    (hnodup : (c.doMethods.map Prod.fst).Nodup) :
    List.Sorted strLeP (pySorted c.actual_command_list) ∧
    (pySorted c.actual_command_list).Perm (c.doMethods.map Prod.fst) ∧
    (pySorted c.actual_command_list).Nodup ∧
    ∃ body,
      do_help_lines c =
        some (["", c.doc_header, String.mk (List.replicate c.doc_header.length '=')] ++ body) ∧
      body.length = (pySorted c.actual_command_list).length ∧
      ∀ i (hi : i < body.length) (hj : i < (pySorted c.actual_command_list).length),
        ∃ m u, c._get_command ((pySorted c.actual_command_list).get ⟨i, hj⟩) = some m ∧
          c.get_usage ((pySorted c.actual_command_list).get ⟨i, hj⟩) = some u ∧
          body.get ⟨i, hi⟩ = ljust u (maxLen + 2) ++ m.doc.getD "" ∧
          u.length ≤ maxLen ∧ (ljust u (maxLen + 2)).length = maxLen + 2 := by
  have hperm : (pySorted c.actual_command_list).Perm (c.doMethods.map Prod.fst) :=
    (List.perm_insertionSort strLeP _).trans (List.perm_insertionSort strLeP _)
  have hsorted : List.Sorted strLeP (pySorted c.actual_command_list) :=
    List.sorted_insertionSort strLeP _
  have hnodup2 : (pySorted c.actual_command_list).Nodup := hperm.nodup_iff.2 hnodup
  have hf2us := option_mapM_forall2 c.get_usage c.command_list usages hus
  have hmemcl : ∀ cmd ∈ pySorted c.actual_command_list, cmd ∈ c.command_list := by
    intro cmd hcmd
    exact List.mem_append.2
      (Or.inl ((List.perm_insertionSort strLeP c.actual_command_list).mem_iff.1 hcmd))
  have husome : ∀ cmd ∈ pySorted c.actual_command_list, ∃ u, c.get_usage cmd = some u := by
    intro cmd hcmd
    obtain ⟨u, _, hru⟩ := forall2_exists_of_mem hf2us cmd (hmemcl cmd hcmd)
    exact ⟨u, hru⟩
  have hgsome : ∀ cmd u, c.get_usage cmd = some u → ∃ m, c._get_command cmd = some m := by
    intro cmd u h
    unfold get_usage _get_command_args at h
    cases hg : c._get_command cmd with
    | none =>
      rw [hg] at h
      simp at h
    | some m => exact ⟨m, rfl⟩
  have hall : ∀ cmd ∈ pySorted c.actual_command_list,
      ((fun command => do
        let m ← c._get_command command
        let u ← c.get_usage command
        pure (ljust u (maxLen + 2) ++ m.doc.getD "")) cmd : Option String).isSome := by
    intro cmd hcmd
    obtain ⟨u, hu⟩ := husome cmd hcmd
    obtain ⟨m, hm⟩ := hgsome cmd u hu
    simp [hm, hu]
  obtain ⟨body, hbody, hf2b⟩ := option_mapM_isSome _ (pySorted c.actual_command_list) hall
  refine ⟨hsorted, hperm, hnodup2, body, ?_, (List.forall₂_iff_get.1 hf2b).1.symm, ?_⟩
  · unfold do_help_lines
    simp only [hus, Option.bind_eq_bind, Option.some_bind, hmax]
    simp only [Option.bind_eq_bind] at hbody
    rw [hbody]
    rfl
  · intro i hi hj
    have hmem : (pySorted c.actual_command_list).get ⟨i, hj⟩ ∈ pySorted c.actual_command_list :=
      List.get_mem _ _ _
    obtain ⟨u, hu⟩ := husome _ hmem
    obtain ⟨m, hm⟩ := hgsome _ u hu
    have hrel := (List.forall₂_iff_get.1 hf2b).2 i hj hi
    simp only [hm, hu, Option.bind_eq_bind, Option.some_bind] at hrel
    refine ⟨m, u, hm, hu, ?_, ?_, ?_⟩
    · exact (Option.some.inj hrel).symm
    · obtain ⟨u0, hu0mem, hu0⟩ := forall2_exists_of_mem hf2us _ (hmemcl _ hmem)
      rw [hu] at hu0
      have := Option.some.inj hu0
      subst this
      exact le_of_max?_eq_some hmax _ (List.mem_map_of_mem String.length hu0mem)
    · obtain ⟨u0, hu0mem, hu0⟩ := forall2_exists_of_mem hf2us _ (hmemcl _ hmem)
      rw [hu] at hu0
      have := Option.some.inj hu0
      subst this
      exact ljust_length
        (le_trans (le_of_max?_eq_some hmax _ (List.mem_map_of_mem String.length hu0mem))
          (Nat.le_add_right _ 2))

/-- C6 witness: on the base class the sorted help body is well-defined. -/
theorem claim_c6_amended_witness :
    List.Sorted strLeP (pySorted basePromptToolkitCmd.actual_command_list) ∧
    (pySorted basePromptToolkitCmd.actual_command_list).Nodup :=
  let h := claim_c6_amended basePromptToolkitCmd
    ["help|?", "history", "quit|exit", "help|?", "quit|exit"] 9
    (by decide) (by decide) (by decide)
  ⟨h.1, h.2.2.1⟩

/-! ### Claim C7: shape of the usage string -/

/-- Spec-side usage string, following the Help Formatter contract's words:
"a usage string of the form `name|alias1|alias2 <required1> ... [optional1] ...`,
with alias names sorted and the canonical name first" — the name part and
each bracketed parameter joined by single spaces.  This is the
specification's reading, for comparison with `_get_command_usage`. -/
def usageSpec (c : PromptToolkitCmd) (command : String) (args kwargs : List Param) : String :=
  pyJoin " " (pyJoin "|" (usageNames c command) ::
    (args.map (fun a => "<" ++ a.name ++ ">") ++ kwargs.map (fun k => "[" ++ k.name ++ "]")))

/-- A Python-identifier-like string: nonempty and without whitespace
(true of command names, alias names such as `?`, and parameter names). -/
def wordy (s : String) : Bool :=
  !s.data.isEmpty && s.data.all fun ch => !ch.isWhitespace

theorem wordy_ne_nil {s : String} (h : wordy s = true) : s.data ≠ [] := by
  unfold wordy at h
  rcases Bool.and_eq_true_iff.1 h with ⟨h1, _⟩
  simpa using h1

theorem wordy_nonws {s : String} (h : wordy s = true) :
    ∀ ch ∈ s.data, ch.isWhitespace = false := by
  unfold wordy at h
  rcases Bool.and_eq_true_iff.1 h with ⟨_, h2⟩
  intro ch hch
  have := List.all_eq_true.1 h2 ch hch
  simpa using this

theorem stripChars_eq_self {l : List Char}
    (h1 : ∀ a, l.head? = some a → a.isWhitespace = false)
    (h2 : ∀ a, l.getLast? = some a → a.isWhitespace = false) :
    stripChars l = l := by
  cases l with
  | nil => rfl
  | cons a t =>
    have ha : a.isWhitespace = false := h1 a rfl
    unfold stripChars
    rw [List.dropWhile_cons, if_neg (by simp [ha])]
    have hne : (a :: t) ≠ [] := by simp
    obtain ⟨b, hb⟩ : ∃ b, (a :: t).getLast? = some b :=
      ⟨(a :: t).getLast hne, List.getLast?_eq_getLast _ hne⟩
    have hbw : b.isWhitespace = false := h2 b hb
    have hrev : (a :: t).reverse.head? = some b := by
      rw [List.head?_reverse]
      exact hb
    cases hr : (a :: t).reverse with
    | nil => simp at hr
    | cons x xs =>
      rw [hr] at hrev
      injection hrev with hx
      subst hx
      rw [List.dropWhile_cons, if_neg (by simp [hbw]), ← hr, List.reverse_reverse]

theorem dropWhile_replicate_space_append (k : Nat) (l : List Char) :
    List.dropWhile Char.isWhitespace (List.replicate k ' ' ++ l) =
      List.dropWhile Char.isWhitespace l := by
  induction k with
  | zero => rfl
  | succ n ih =>
    rw [List.replicate_succ, List.cons_append, List.dropWhile_cons,
      if_pos (by decide : (' ' : Char).isWhitespace = true)]
    exact ih

theorem stripChars_append_spaces {l : List Char} (k : Nat)
    (h1 : ∀ a, l.head? = some a → a.isWhitespace = false)
    (h2 : ∀ a, l.getLast? = some a → a.isWhitespace = false)
    (hne : l ≠ []) :
    stripChars (l ++ List.replicate k ' ') = l := by
  cases l with
  | nil => exact absurd rfl hne
  | cons a t =>
    have ha : a.isWhitespace = false := h1 a rfl
    unfold stripChars
    rw [List.cons_append, List.dropWhile_cons, if_neg (by simp [ha]), ← List.cons_append,
      List.reverse_append, List.reverse_replicate, dropWhile_replicate_space_append]
    obtain ⟨b, hb⟩ : ∃ b, (a :: t).getLast? = some b :=
      ⟨(a :: t).getLast (by simp), List.getLast?_eq_getLast _ (by simp)⟩
    have hbw : b.isWhitespace = false := h2 b hb
    have hrev : (a :: t).reverse.head? = some b := by
      rw [List.head?_reverse]
      exact hb
    cases hr : (a :: t).reverse with
    | nil => simp at hr
    | cons x xs =>
      rw [hr] at hrev
      injection hrev with hx
      subst hx
      rw [List.dropWhile_cons, if_neg (by simp [hbw]), ← hr, List.reverse_reverse]

theorem pyJoin_cons_cons (sep x y : String) (ys : List String) :
    pyJoin sep (x :: y :: ys) = x ++ sep ++ pyJoin sep (y :: ys) := rfl

theorem pyJoin_getLast {cl : Char} (sep : String) :
    ∀ (ts : List String), ts ≠ [] → (∀ t ∈ ts, t.data.getLast? = some cl) →
      (pyJoin sep ts).data.getLast? = some cl := by
  intro ts
  induction ts with
  | nil => intro h; exact absurd rfl h
  | cons x xs ih =>
    intro _ hall
    cases xs with
    | nil => exact hall x (List.mem_cons_self _ _)
    | cons y ys =>
      have htail := ih (by simp) fun t ht => hall t (List.mem_cons_of_mem _ ht)
      rw [pyJoin_cons_cons, String.data_append, List.getLast?_append, htail]
      rfl

theorem pyJoin_getLast_mem (sep : String) :
    ∀ (ts : List String), ts ≠ [] → (∀ t ∈ ts, t.data ≠ []) →
      ∃ t ∈ ts, (pyJoin sep ts).data.getLast? = t.data.getLast? := by
  intro ts
  induction ts with
  | nil => intro h; exact absurd rfl h
  | cons x xs ih =>
    intro _ hall
    cases xs with
    | nil => exact ⟨x, List.mem_cons_self _ _, rfl⟩
    | cons y ys =>
      obtain ⟨t, ht, heq⟩ := ih (by simp) fun t ht => hall t (List.mem_cons_of_mem _ ht)
      obtain ⟨b, hb⟩ : ∃ b, t.data.getLast? = some b := by
        have := hall t (List.mem_cons_of_mem _ ht)
        exact ⟨t.data.getLast this, List.getLast?_eq_getLast _ this⟩
      refine ⟨t, List.mem_cons_of_mem _ ht, ?_⟩
      rw [pyJoin_cons_cons, String.data_append, List.getLast?_append, heq, hb]
      rfl

theorem pyJoin_head (sep x : String) (xs : List String) (hx : x.data ≠ []) :
    (pyJoin sep (x :: xs)).data.head? = x.data.head? := by
  cases xs with
  | nil => rfl
  | cons y ys =>
    cases hx2 : x.data with
    | nil => exact absurd hx2 hx
    | cons a t =>
      rw [pyJoin_cons_cons, String.data_append, String.data_append, hx2]
      rfl

theorem pyJoin_append (sep : String) :
    ∀ (l1 l2 : List String), l1 ≠ [] → l2 ≠ [] →
      pyJoin sep (l1 ++ l2) = pyJoin sep l1 ++ sep ++ pyJoin sep l2 := by
  intro l1
  induction l1 with
  | nil => intro l2 h _; exact absurd rfl h
  | cons x xs ih =>
    intro l2 _ h2
    cases xs with
    | nil =>
      cases l2 with
      | nil => exact absurd rfl h2
      | cons y ys => rfl
    | cons x2 xs2 =>
      have := ih l2 (by simp) h2
      rw [List.cons_append] at this
      rw [List.cons_append, List.cons_append, pyJoin_cons_cons, this, pyJoin_cons_cons]
      apply String.ext
      simp [String.data_append]

theorem head?_append_left {l1 l2 : List Char} (h : l1 ≠ []) :
    (l1 ++ l2).head? = l1.head? := by
  cases l1 with
  | nil => exact absurd rfl h
  | cons a t => rfl

theorem pyJoin_cons_ne (sep x : String) {l : List String} (h : l ≠ []) :
    pyJoin sep (x :: l) = x ++ sep ++ pyJoin sep l := by
  cases l with
  | nil => exact absurd rfl h
  | cons y ys => rfl

/-- `"{} {} {}".format(A, B, C).strip()` for a non-whitespace-delimited
`A` and `B`, `C` that are empty or end in a non-whitespace character:
trailing separator spaces are stripped exactly when `B` or `C` is empty,
and the inner double space stays when only `B` is empty. -/
theorem pyStrip_format3 (A B C : String)
    (hA1 : ∀ a, A.data.head? = some a → a.isWhitespace = false)
    (hA2 : ∀ a, A.data.getLast? = some a → a.isWhitespace = false)
    (hAne : A.data ≠ [])
    (hB : B.data = [] ∨ ∃ b, B.data.getLast? = some b ∧ b.isWhitespace = false)
    (hC : C.data = [] ∨ ∃ cc, C.data.getLast? = some cc ∧ cc.isWhitespace = false) :
    pyStrip (A ++ " " ++ B ++ " " ++ C) =
      if C.data = [] then (if B.data = [] then A else A ++ " " ++ B)
      else A ++ " " ++ B ++ " " ++ C := by
  have hsp : (" " : String).data = [' '] := rfl
  have hdata : (A ++ " " ++ B ++ " " ++ C).data =
      (((A.data ++ [' ']) ++ B.data) ++ [' ']) ++ C.data := by
    rw [String.data_append, String.data_append, String.data_append, String.data_append, hsp]
  by_cases hCc : C.data = []
  · by_cases hBc : B.data = []
    · rw [if_pos hCc, if_pos hBc]
      apply String.ext
      show stripChars (A ++ " " ++ B ++ " " ++ C).data = A.data
      have hd2 : (A ++ " " ++ B ++ " " ++ C).data = A.data ++ List.replicate 2 ' ' := by
        rw [hdata, hBc, hCc, List.append_nil, List.append_nil, List.append_assoc]
        rfl
      rw [hd2]
      exact stripChars_append_spaces 2 hA1 hA2 hAne
    · rw [if_pos hCc, if_neg hBc]
      apply String.ext
      show stripChars (A ++ " " ++ B ++ " " ++ C).data = (A ++ " " ++ B).data
      obtain ⟨b, hbl, hbw⟩ := hB.resolve_left hBc
      have hABdata : (A ++ " " ++ B).data = (A.data ++ [' ']) ++ B.data := by
        rw [String.data_append, String.data_append, hsp]
      have hd2 : (A ++ " " ++ B ++ " " ++ C).data =
          (A ++ " " ++ B).data ++ List.replicate 1 ' ' := by
        rw [hdata, hCc, List.append_nil, hABdata]
        rfl
      rw [hd2]
      apply stripChars_append_spaces 1
      · intro a ha
        rw [hABdata, List.append_assoc, head?_append_left hAne] at ha
        exact hA1 a ha
      · intro a ha
        rw [hABdata, List.getLast?_append, hbl] at ha
        injection ha with h0
        subst h0
        exact hbw
      · rw [hABdata]
        simp
  · rw [if_neg hCc]
    apply String.ext
    show stripChars (A ++ " " ++ B ++ " " ++ C).data = (A ++ " " ++ B ++ " " ++ C).data
    obtain ⟨cc, hcl, hcw⟩ := hC.resolve_left hCc
    apply stripChars_eq_self
    · intro a ha
      rw [hdata, List.append_assoc, List.append_assoc, List.append_assoc,
        head?_append_left hAne] at ha
      exact hA1 a ha
    · intro a ha
      rw [hdata, List.getLast?_append, hcl] at ha
      injection ha with h0
      subst h0
      exact hcw

/-- The computed usage string, as a function of the names part and the
bracketed parameter tokens: single-space separated, except that an empty
argument part with a nonempty kwargs part leaves a double space. -/
theorem usage_format (names argT kwT : List String)
    (hne : names ≠ []) (hw : ∀ n ∈ names, wordy n = true)
    (hargT : ∀ t ∈ argT, t.data.getLast? = some '>')
    (hkwT : ∀ t ∈ kwT, t.data.getLast? = some ']') :
    pyStrip (pyJoin "|" names ++ " " ++ pyJoin " " argT ++ " " ++ pyJoin " " kwT) =
      if kwT = [] then
        (if argT = [] then pyJoin "|" names
         else pyJoin "|" names ++ " " ++ pyJoin " " argT)
      else pyJoin "|" names ++ " " ++ pyJoin " " argT ++ " " ++ pyJoin " " kwT := by
  obtain ⟨n0, ns, rfl⟩ : ∃ n0 ns, names = n0 :: ns := by
    cases names with
    | nil => exact absurd rfl hne
    | cons n0 ns => exact ⟨n0, ns, rfl⟩
  have hn0 : wordy n0 = true := hw n0 (List.mem_cons_self _ _)
  have hA1 : ∀ a, (pyJoin "|" (n0 :: ns)).data.head? = some a → a.isWhitespace = false := by
    intro a ha
    rw [pyJoin_head "|" n0 ns (wordy_ne_nil hn0)] at ha
    cases hcd : n0.data with
    | nil => exact absurd hcd (wordy_ne_nil hn0)
    | cons a0 t =>
      rw [hcd] at ha
      injection ha with h0
      subst h0
      exact wordy_nonws hn0 a0 (by rw [hcd]; exact List.mem_cons_self _ _)
  have hA2 : ∀ a, (pyJoin "|" (n0 :: ns)).data.getLast? = some a → a.isWhitespace = false := by
    obtain ⟨t, ht, heq⟩ := pyJoin_getLast_mem "|" (n0 :: ns) (by simp)
      fun t ht => wordy_ne_nil (hw t ht)
    intro a ha
    rw [heq] at ha
    have htne : t.data ≠ [] := wordy_ne_nil (hw t ht)
    rw [List.getLast?_eq_getLast _ htne] at ha
    injection ha with h0
    subst h0
    exact wordy_nonws (hw t ht) _ (List.getLast_mem htne)
  have hAne : (pyJoin "|" (n0 :: ns)).data ≠ [] := by
    intro hnil
    have := pyJoin_head "|" n0 ns (wordy_ne_nil hn0)
    rw [hnil] at this
    cases hcd : n0.data with
    | nil => exact absurd hcd (wordy_ne_nil hn0)
    | cons a0 t =>
      rw [hcd] at this
      simp at this
  have hB : (pyJoin " " argT).data = [] ∨
      ∃ b, (pyJoin " " argT).data.getLast? = some b ∧ b.isWhitespace = false := by
    cases hat : argT with
    | nil => left; rfl
    | cons t ts =>
      right
      exact ⟨'>', pyJoin_getLast " " (t :: ts) (by simp) (hat ▸ hargT), rfl⟩
  have hC : (pyJoin " " kwT).data = [] ∨
      ∃ cc, (pyJoin " " kwT).data.getLast? = some cc ∧ cc.isWhitespace = false := by
    cases hkt : kwT with
    | nil => left; rfl
    | cons t ts =>
      right
      exact ⟨']', pyJoin_getLast " " (t :: ts) (by simp) (hkt ▸ hkwT), rfl⟩
  rw [pyStrip_format3 _ _ _ hA1 hA2 hAne hB hC]
  have hBnil : ∀ (l : List String), (pyJoin " " l).data = [] ↔ l = [] ∨ l = [""] := by
    intro l
    constructor
    · intro h
      cases l with
      | nil => exact Or.inl rfl
      | cons t ts =>
        cases ts with
        | nil =>
          right
          have : t = "" := String.ext h
          rw [this]
        | cons t2 ts2 =>
          rw [pyJoin_cons_cons, String.data_append, String.data_append] at h
          simp at h

    · intro h
      rcases h with rfl | rfl
      · rfl
      · rfl
  by_cases hkt : kwT = []
  · have hCnil : (pyJoin " " kwT).data = [] := by rw [hkt]; rfl
    rw [if_pos hCnil, if_pos hkt]
    by_cases hat : argT = []
    · have hBnil2 : (pyJoin " " argT).data = [] := by rw [hat]; rfl
      rw [if_pos hBnil2, if_pos hat]
    · have hBne : (pyJoin " " argT).data ≠ [] := by
        intro hnil
        rcases (hBnil argT).1 hnil with h | h
        · exact hat h
        · rw [h] at hargT
          have := hargT "" (List.mem_cons_self _ _)
          simp at this
      rw [if_neg hBne, if_neg hat]
  · have hCne : (pyJoin " " kwT).data ≠ [] := by
      intro hnil
      rcases (hBnil kwT).1 hnil with h | h
      · exact hkt h
      · rw [h] at hkwT
        have := hkwT "" (List.mem_cons_self _ _)
        simp at this
    rw [if_neg hCne, if_neg hkt]

/-- C7 counterexample: for a command with no required and one optional
parameter, the code's usage string keeps both format separators around the
empty required-part, producing a double space (`"foo  [x]"`), not the
single-space form `name [optional]` (`"foo [x]"`) of the spec. -/
theorem claim_c7_counterexample :
    optOnlyCmd._get_command_usage "foo" [] [⟨"x", true⟩] = "foo  [x]" ∧
    usageSpec optOnlyCmd "foo" [] [⟨"x", true⟩] = "foo [x]" ∧
    optOnlyCmd._get_command_usage "foo" [] [⟨"x", true⟩] ≠
      usageSpec optOnlyCmd "foo" [] [⟨"x", true⟩] := by
  decide

/-- C7 amended: for names without whitespace (Python identifiers and sane
alias names), the usage string is the canonical name first, the alias
names sorted, joined with `|`, followed by the `<required>` then
`[optional]` tokens separated by single spaces — except that a command
with no required but at least one optional parameter gets two spaces
between the name part and the first `[optional]` token. -/
theorem claim_c7_amended (c : PromptToolkitCmd) (command : String) (args kwargs : List Param)
    (hnames : ∀ n ∈ usageNames c command, wordy n = true) :
    c._get_command_usage command args kwargs =
      if args = [] ∧ kwargs ≠ [] then
        pyJoin "|" (usageNames c command) ++ "  " ++
          pyJoin " " (kwargs.map fun k => "[" ++ k.name ++ "]")
      else usageSpec c command args kwargs := by
  have hargT : ∀ t ∈ args.map (fun a => "<" ++ a.name ++ ">"),
      t.data.getLast? = some '>' := by
    intro t ht
    rcases List.mem_map.1 ht with ⟨q, hq, rfl⟩
    rw [String.data_append, show (">" : String).data = ['>'] from rfl]
    exact List.getLast?_concat _
  have hkwT : ∀ t ∈ kwargs.map (fun k => "[" ++ k.name ++ "]"),
      t.data.getLast? = some ']' := by
    intro t ht
    rcases List.mem_map.1 ht with ⟨q, hq, rfl⟩
    rw [String.data_append, show ("]" : String).data = [']'] from rfl]
    exact List.getLast?_concat _
  have hne : usageNames c command ≠ [] := by
    unfold usageNames
    simp
  have hmain := usage_format (usageNames c command) (args.map fun a => "<" ++ a.name ++ ">")
    (kwargs.map fun k => "[" ++ k.name ++ "]") hne hnames hargT hkwT
  unfold _get_command_usage
  rw [hmain]
  by_cases hkw : kwargs = []
  · subst hkw
    by_cases hargs : args = []
    · subst hargs
      simp only [List.map_nil]
      rw [if_pos trivial, if_pos trivial, if_neg (by simp)]
      unfold usageSpec
      rfl
    · simp only [List.map_nil]
      rw [if_pos trivial, if_neg (by simpa using hargs), if_neg (by simp)]
      unfold usageSpec
      simp only [List.map_nil, List.append_nil]
      rw [pyJoin_cons_ne " " _ (by simpa using hargs)]
  · by_cases hargs : args = []
    · subst hargs
      simp only [List.map_nil]
      rw [if_neg (by simpa using hkw), if_pos ⟨trivial, hkw⟩]
      apply String.ext
      simp [String.data_append, show (" " : String).data = [' '] from rfl,
        show ("  " : String).data = [' ', ' '] from rfl,
        show pyJoin " " ([] : List String) = "" from rfl, List.append_assoc]
    · rw [if_neg (by simpa using hkw), if_neg fun h => hargs h.1]
      unfold usageSpec
      cases hargs2 : args with
      | nil => exact absurd hargs2 hargs
      | cons p ps =>
        cases hkw2 : kwargs with
        | nil => exact absurd hkw2 hkw
        | cons q qs =>
          rw [List.map_cons, List.map_cons, List.cons_append, pyJoin_cons_cons,
            ← List.cons_append, pyJoin_append " " _ _ (by simp) (by simp)]
          apply String.ext
          simp [String.data_append, List.map_cons, List.append_assoc]

/-- C7 witness: on the base class, `help` (one required/optional list
empty is allowed as long as not only-optional) matches the spec form. -/
theorem claim_c7_witness :
    basePromptToolkitCmd._get_command_usage "help" [] [] =
      usageSpec basePromptToolkitCmd "help" [] [] := by
  have h := claim_c7_amended basePromptToolkitCmd "help" [] [] (by decide)
  rw [h, if_neg (by simp)]

end Aiocmd
